import Mathlib

/-!
Shallow embedding of the game-simulation core of `space_invaders.c`
(Space-Invaders-Project-in-C).  The SDL presentation layer is out of
scope; the embedding covers the per-frame update logic of `main`
(player motion, bullet motion, formation movement, bullet-alien
collision, row-reach handling, victory check), the input handlers
(arrow keys, SPACE, R), and `resetGame`/`rect_collide`.
-/

set_option maxRecDepth 100000

namespace SpaceInvaders

/-- WINDOW_WIDTH. -/
def windowWidth : Int := 640

/-- WINDOW_HEIGHT. -/
def windowHeight : Int := 480

/-- PLAYER_SPEED. -/
def playerSpeed : Int := 5

/-- PLAYER_WIDTH. -/
def playerWidth : Int := 32

/-- PLAYER_HEIGHT. -/
def playerHeight : Int := 32

/-- PLAYER_LIVES. -/
def playerLives : Int := 3

/-- BULLET_SPEED. -/
def bulletSpeed : Int := 7

/-- BULLET_WIDTH. -/
def bulletWidth : Int := 4

/-- BULLET_HEIGHT. -/
def bulletHeight : Int := 10

/-- MAX_BULLETS. -/
def maxBullets : Nat := 5

/-- ALIEN_COUNT. -/
def alienCount : Nat := 8

/-- ALIEN_WIDTH. -/
def alienWidth : Int := 32

/-- ALIEN_HEIGHT. -/
def alienHeight : Int := 32

/-- ALIEN_START_X. -/
def alienStartX : Int := 50

/-- ALIEN_START_Y. -/
def alienStartY : Int := 50

/-- ALIEN_SPACING. -/
def alienSpacing : Int := 50

/-- ALIEN_SPEED. -/
def alienSpeed : Int := 1

/-- ALIEN_DESCENT. -/
def alienDescent : Int := 20

/-- struct Player: x, y, w, h, vx. -/
structure Player where
  x : Int
  y : Int
  w : Int
  h : Int
  vx : Int
deriving DecidableEq

/-- struct Bullet: x, y, w, h, active. -/
structure Bullet where
  x : Int
  y : Int
  w : Int
  h : Int
  active : Bool
deriving DecidableEq

/-- struct Alien: x, y, w, h, active. -/
structure Alien where
  x : Int
  y : Int
  w : Int
  h : Int
  active : Bool
deriving DecidableEq

/-- The simulation state: the player, the bullet pool, the alien row and
the globals gScore, gLives, gGameOver, gAlienMoveDir. -/
structure GameState where
  player : Player
  bullets : List Bullet
  aliens : List Alien
  score : Int
  lives : Int
  gameOver : Bool
  dir : Int
deriving DecidableEq

/-- The function rect_collide (space_invaders.c lines 81-86): the four
strict inequality axis-aligned rectangle overlap test. -/
def rect_collide (x1 y1 w1 h1 x2 y2 w2 h2 : Int) : Bool :=
  decide (x1 < x2 + w2) && decide (x1 + w1 > x2) &&
  decide (y1 < y2 + h2) && decide (y1 + h1 > y2)

/-- Frame phase 1 (lines 325-330): player.x += vx, then clamp to the left
edge, then clamp to the right edge. -/
def movePlayer (s : GameState) : GameState :=
  let x1 := s.player.x + s.player.vx
  let x2 := if x1 < 0 then 0 else x1
  let x3 := if x2 + s.player.w > windowWidth then windowWidth - s.player.w else x2
  { s with player := { s.player with x := x3 } }

/-- One bullet in frame phase 2 (lines 333-340): active bullets move up
by BULLET_SPEED and are deactivated once fully above the screen. -/
def stepBullet (b : Bullet) : Bullet :=
  if b.active then
    let y2 := b.y - bulletSpeed
    if y2 + b.h < 0 then { b with y := y2, active := false }
    else { b with y := y2 }
  else b

/-- Frame phase 2 (lines 332-340). -/
def moveBullets (s : GameState) : GameState :=
  { s with bullets := s.bullets.map stepBullet }

/-- The per-alien test of lines 344-351: an active alien whose prospective
x (current x plus ALIEN_SPEED * direction) would leave the screen. -/
def alienAtBoundary (dir : Int) (a : Alien) : Bool :=
  a.active &&
    (decide (a.x + alienSpeed * dir < 0) ||
     decide (a.x + alienSpeed * dir + a.w > windowWidth))

/-- needDescend (lines 342-351). -/
def needDescend (s : GameState) : Bool :=
  s.aliens.any (alienAtBoundary s.dir)

/-- Frame phase 3 (lines 342-367): either the whole formation descends by
ALIEN_DESCENT and the direction flips, or every active alien translates
by ALIEN_SPEED * direction. -/
def moveAliens (s : GameState) : GameState :=
  if needDescend s then
    { s with dir := -s.dir,
             aliens := s.aliens.map
               (fun a => if a.active then { a with y := a.y + alienDescent } else a) }
  else
    { s with aliens := s.aliens.map
               (fun a => if a.active then { a with x := a.x + alienSpeed * s.dir } else a) }

/-- The inner loop of lines 372-384 for one bullet: scan the aliens in
index order, deactivate the first active overlapping one; `none` when no
active alien overlaps. -/
def hitFirst (b : Bullet) : List Alien → Option (List Alien)
  | [] => none
  | a :: rest =>
    if a.active && rect_collide b.x b.y b.w b.h a.x a.y a.w a.h then
      some ({ a with active := false } :: rest)
    else
      match hitFirst b rest with
      | some rest2 => some (a :: rest2)
      | none => none

/-- The bullet loop of lines 370-385: bullets processed in index order,
each active bullet deactivating at most the first overlapping active
alien and adding 10 to the score. -/
def collideBullets : List Bullet → List Alien → Int → List Bullet × List Alien × Int
  | [], aliens, score => ([], aliens, score)
  | b :: bs, aliens, score =>
    if b.active then
      match hitFirst b aliens with
      | some aliens2 =>
        let r := collideBullets bs aliens2 (score + 10)
        ({ b with active := false } :: r.1, r.2.1, r.2.2)
      | none =>
        let r := collideBullets bs aliens score
        (b :: r.1, r.2.1, r.2.2)
    else
      let r := collideBullets bs aliens score
      (b :: r.1, r.2.1, r.2.2)

/-- Frame phase 4 (lines 369-385). -/
def collideStep (s : GameState) : GameState :=
  let r := collideBullets s.bullets s.aliens s.score
  { s with bullets := r.1, aliens := r.2.1, score := r.2.2 }

/-- An active alien whose bottom edge has reached the player's top edge
(line 390). -/
def reachedRow (py : Int) (a : Alien) : Bool :=
  a.active && decide (py ≤ a.y + a.h)

/-- The wave-reset loop of lines 397-401: every alien is reactivated at
its starting grid position; widths and heights are left as they are. -/
def waveResetAliens : Nat → List Alien → List Alien
  | _, [] => []
  | i, a :: rest =>
    { a with active := true, x := alienStartX + alienSpacing * (i : Int), y := alienStartY } ::
      waveResetAliens (i + 1) rest

/-- Frame phase 5 (lines 387-409): the first active alien at the player
row costs one life; at zero lives the game ends, otherwise the wave is
reset (aliens reactivated, bullets cleared). -/
def rowReachStep (s : GameState) : GameState :=
  if s.aliens.any (reachedRow s.player.y) then
    if s.lives - 1 ≤ 0 then
      { s with lives := s.lives - 1, gameOver := true }
    else
      { s with lives := s.lives - 1,
               aliens := waveResetAliens 0 s.aliens,
               bullets := s.bullets.map (fun b => { b with active := false }) }
  else s

/-- Frame phase 6 (lines 412-422): if every alien is inactive and the
game is not already over, the game ends (victory). -/
def victoryCheck (s : GameState) : GameState :=
  if s.aliens.all (fun a => !a.active) && !s.gameOver then { s with gameOver := true } else s

/-- One frame update: the update block of lines 324-410 runs only when
the game is not over; the victory check of lines 412-422 always runs. -/
def frameUpdate (s : GameState) : GameState :=
  if s.gameOver then victoryCheck s
  else victoryCheck (rowReachStep (collideStep (moveAliens (moveBullets (movePlayer s)))))

/-- SDLK_LEFT keydown (lines 277-279). -/
def pressLeft (s : GameState) : GameState :=
  { s with player := { s.player with vx := -playerSpeed } }

/-- SDLK_RIGHT keydown (lines 280-282). -/
def pressRight (s : GameState) : GameState :=
  { s with player := { s.player with vx := playerSpeed } }

/-- SDLK_LEFT keyup (lines 311-313): clears the velocity only when it is
negative. -/
def releaseLeft (s : GameState) : GameState :=
  if s.player.vx < 0 then { s with player := { s.player with vx := 0 } } else s

/-- SDLK_RIGHT keyup (lines 314-316): clears the velocity only when it is
positive. -/
def releaseRight (s : GameState) : GameState :=
  if 0 < s.player.vx then { s with player := { s.player with vx := 0 } } else s

/-- The slot scan of lines 287-294: the first inactive bullet is
activated, centered on the player with its bottom at the player's top. -/
def fireBullets (p : Player) : List Bullet → List Bullet
  | [] => []
  | b :: bs =>
    if b.active then b :: fireBullets p bs
    else { b with active := true,
                  x := p.x + p.w / 2 - b.w / 2,
                  y := p.y - b.h } :: bs

/-- SDLK_SPACE keydown (lines 284-296): a no-op when the game is over. -/
def fireBullet (s : GameState) : GameState :=
  if s.gameOver then s else { s with bullets := fireBullets s.player s.bullets }

/-- The player as set up at lines 233-238 and by resetGame. -/
def initPlayer : Player :=
  { x := (windowWidth - playerWidth) / 2,
    y := windowHeight - (playerHeight + 40),
    w := playerWidth, h := playerHeight, vx := 0 }

/-- The bullet pool as set up at lines 241-248 and by resetGame. -/
def initBullets : List Bullet :=
  List.replicate maxBullets { x := 0, y := 0, w := bulletWidth, h := bulletHeight, active := false }

/-- Alien i of the starting grid. -/
def alienAt (i : Nat) : Alien :=
  { x := alienStartX + alienSpacing * (i : Int), y := alienStartY,
    w := alienWidth, h := alienHeight, active := true }

/-- The alien row as set up at lines 251-258 and by resetGame. -/
def initAliens : List Alien :=
  (List.range alienCount).map alienAt

/-- The process-start state (lines 55-59 and 232-258). -/
def initState : GameState :=
  { player := initPlayer, bullets := initBullets, aliens := initAliens,
    score := 0, lives := playerLives, gameOver := false, dir := 1 }

/-- The function resetGame (lines 119-151): every field of the state is
rewritten to its starting value. -/
def resetGame (s : GameState) : GameState :=
  { s with lives := playerLives, score := 0, gameOver := false, dir := 1,
           player := initPlayer, bullets := initBullets, aliens := initAliens }

/-- SDLK_r keydown (lines 298-303): resetGame runs only when the game is
over. -/
def restartKey (s : GameState) : GameState :=
  if s.gameOver then resetGame s else s

/-- One external event or one simulation tick. -/
inductive Cmd where
  | frame
  | fire
  | leftDown
  | rightDown
  | leftUp
  | rightUp
  | restart
deriving DecidableEq

/-- Apply one command to the state. -/
def applyCmd (s : GameState) : Cmd → GameState
  | Cmd.frame => frameUpdate s
  | Cmd.fire => fireBullet s
  | Cmd.leftDown => pressLeft s
  | Cmd.rightDown => pressRight s
  | Cmd.leftUp => releaseLeft s
  | Cmd.rightUp => releaseRight s
  | Cmd.restart => restartKey s

/-- Run a command list from a state. -/
def run (s : GameState) : List Cmd → GameState
  | [] => s
  | c :: cs => run (applyCmd s c) cs

/-- The states the program can be in: the start state closed under
events and frame updates. -/
inductive Reachable : GameState → Prop where
  | init : Reachable initState
  | step : ∀ (s : GameState) (c : Cmd), Reachable s → Reachable (applyCmd s c)

/-- A concrete input script whose run from the start state destroys all
eight aliens and reaches the victory game-over state. -/
def winScript : List Cmd :=
  [Cmd.fire, Cmd.leftDown] ++ List.replicate 9 Cmd.frame ++
  [Cmd.fire] ++ List.replicate 9 Cmd.frame ++
  [Cmd.fire] ++ List.replicate 8 Cmd.frame ++
  [Cmd.fire] ++ List.replicate 8 Cmd.frame ++
  [Cmd.fire, Cmd.rightDown] ++ List.replicate 62 Cmd.frame ++
  [Cmd.fire] ++ List.replicate 12 Cmd.frame ++
  [Cmd.fire] ++ List.replicate 13 Cmd.frame ++
  [Cmd.fire] ++ List.replicate 46 Cmd.frame

/-- The state at the end of the victory script. -/
def winState : GameState := run initState winScript

/-- The bullet-versus-alien overlap test as called at lines 374-377. -/
def overlapsB (b : Bullet) (a : Alien) : Bool :=
  rect_collide b.x b.y b.w b.h a.x a.y a.w a.h

/-- All active aliens of the list share one y coordinate. -/
def rowAligned (l : List Alien) : Prop :=
  ∀ a ∈ l, a.active = true → ∀ b ∈ l, b.active = true → a.y = b.y

/-- Every alien of `l2` has the y of some alien of `l` and is active only
if that one was: the only way a collision pass changes the row. -/
def subAliens (l2 l : List Alien) : Prop :=
  ∀ a2 ∈ l2, ∃ a ∈ l, a2.y = a.y ∧ (a2.active = true → a.active = true)

/-- The state invariant maintained by every event and every frame. -/
def Inv (s : GameState) : Prop :=
  s.bullets.length = maxBullets ∧
  s.aliens.length = alienCount ∧
  (s.gameOver = false → 1 ≤ s.lives) ∧
  (s.gameOver = true →
    (s.lives = 0 ∧ ∃ a ∈ s.aliens, a.active = true) ∨
    (1 ≤ s.lives ∧ ∀ a ∈ s.aliens, a.active = false)) ∧
  rowAligned s.aliens

/-- The invariant behind "a fresh game that loses no life scores 10 per
destroyed alien": lives never exceed 3, and while they are still 3 the
score plus 10 per remaining active alien is exactly 80. -/
def freshInv (s : GameState) : Prop :=
  s.lives ≤ 3 ∧
  (s.lives = 3 → s.score + 10 * (s.aliens.countP (fun a => a.active) : Int) = 80)

/-- A one-alien state one tick away from the row-reach event. -/
def reachDemo : GameState :=
  { initState with aliens := [{ x := 50, y := 380, w := 32, h := 32, active := true }] }

/-- A one-alien state at the right boundary, about to descend. -/
def descendDemo : GameState :=
  { initState with aliens := [{ x := 608, y := 50, w := 32, h := 32, active := true }] }

/-- A game-over state with stale score and lives. -/
def overDemo : GameState :=
  { initState with gameOver := true, score := 50, lives := 1 }

/-- An active bullet overlapping alien 5 of the starting grid. -/
def demoBullet : Bullet := { x := 318, y := 60, w := 4, h := 10, active := true }

/-- The starting grid after that bullet's hit: alien 5 deactivated. -/
def demoHitAliens : List Alien := initAliens.set 5 { alienAt 5 with active := false }

theorem run_reachable (cs : List Cmd) (s : GameState) (h : Reachable s) :
    Reachable (run s cs) := by
  induction cs generalizing s with
  | nil => exact h
  | cons c cs ih => exact ih (applyCmd s c) (Reachable.step s c h)

theorem winState_gameOver : winState.gameOver = true := by decide

@[simp] theorem movePlayer_bullets (s : GameState) : (movePlayer s).bullets = s.bullets := rfl

@[simp] theorem movePlayer_aliens (s : GameState) : (movePlayer s).aliens = s.aliens := rfl

@[simp] theorem movePlayer_score (s : GameState) : (movePlayer s).score = s.score := rfl

@[simp] theorem movePlayer_lives (s : GameState) : (movePlayer s).lives = s.lives := rfl

@[simp] theorem movePlayer_gameOver (s : GameState) : (movePlayer s).gameOver = s.gameOver := rfl

@[simp] theorem movePlayer_dir (s : GameState) : (movePlayer s).dir = s.dir := rfl

@[simp] theorem movePlayer_y (s : GameState) : (movePlayer s).player.y = s.player.y := rfl

@[simp] theorem moveBullets_player (s : GameState) : (moveBullets s).player = s.player := rfl

@[simp] theorem moveBullets_aliens (s : GameState) : (moveBullets s).aliens = s.aliens := rfl

@[simp] theorem moveBullets_score (s : GameState) : (moveBullets s).score = s.score := rfl

@[simp] theorem moveBullets_lives (s : GameState) : (moveBullets s).lives = s.lives := rfl

@[simp] theorem moveBullets_gameOver (s : GameState) : (moveBullets s).gameOver = s.gameOver := rfl

@[simp] theorem moveBullets_dir (s : GameState) : (moveBullets s).dir = s.dir := rfl

@[simp] theorem moveBullets_len (s : GameState) : (moveBullets s).bullets.length = s.bullets.length := by
  simp [moveBullets]

@[simp] theorem moveAliens_player (s : GameState) : (moveAliens s).player = s.player := by
  unfold moveAliens; split <;> rfl

@[simp] theorem moveAliens_bullets (s : GameState) : (moveAliens s).bullets = s.bullets := by
  unfold moveAliens; split <;> rfl

@[simp] theorem moveAliens_score (s : GameState) : (moveAliens s).score = s.score := by
  unfold moveAliens; split <;> rfl

@[simp] theorem moveAliens_lives (s : GameState) : (moveAliens s).lives = s.lives := by
  unfold moveAliens; split <;> rfl

@[simp] theorem moveAliens_gameOver (s : GameState) : (moveAliens s).gameOver = s.gameOver := by
  unfold moveAliens; split <;> rfl

@[simp] theorem moveAliens_len (s : GameState) : (moveAliens s).aliens.length = s.aliens.length := by
  unfold moveAliens; split <;> simp

@[simp] theorem collideStep_player (s : GameState) : (collideStep s).player = s.player := rfl

@[simp] theorem collideStep_lives (s : GameState) : (collideStep s).lives = s.lives := rfl

@[simp] theorem collideStep_gameOver (s : GameState) : (collideStep s).gameOver = s.gameOver := rfl

@[simp] theorem collideStep_dir (s : GameState) : (collideStep s).dir = s.dir := rfl

@[simp] theorem rowReachStep_player (s : GameState) : (rowReachStep s).player = s.player := by
  unfold rowReachStep
  split
  · split <;> rfl
  · rfl

@[simp] theorem rowReachStep_score (s : GameState) : (rowReachStep s).score = s.score := by
  unfold rowReachStep
  split
  · split <;> rfl
  · rfl

@[simp] theorem rowReachStep_dir (s : GameState) : (rowReachStep s).dir = s.dir := by
  unfold rowReachStep
  split
  · split <;> rfl
  · rfl

@[simp] theorem victoryCheck_player (s : GameState) : (victoryCheck s).player = s.player := by
  unfold victoryCheck; split <;> rfl

@[simp] theorem victoryCheck_bullets (s : GameState) : (victoryCheck s).bullets = s.bullets := by
  unfold victoryCheck; split <;> rfl

@[simp] theorem victoryCheck_aliens (s : GameState) : (victoryCheck s).aliens = s.aliens := by
  unfold victoryCheck; split <;> rfl

@[simp] theorem victoryCheck_score (s : GameState) : (victoryCheck s).score = s.score := by
  unfold victoryCheck; split <;> rfl

@[simp] theorem victoryCheck_lives (s : GameState) : (victoryCheck s).lives = s.lives := by
  unfold victoryCheck; split <;> rfl

@[simp] theorem victoryCheck_dir (s : GameState) : (victoryCheck s).dir = s.dir := by
  unfold victoryCheck; split <;> rfl

theorem victoryCheck_of_gameOver (s : GameState) (h : s.gameOver = true) :
    victoryCheck s = s := by
  simp [victoryCheck, h]

theorem victoryCheck_of_active (s : GameState) (a : Alien) (ha : a ∈ s.aliens)
    (hact : a.active = true) : victoryCheck s = s := by
  unfold victoryCheck
  rw [if_neg]
  intro hc
  rw [Bool.and_eq_true, List.all_eq_true] at hc
  have := hc.1 a ha
  simp [hact] at this

/-- C7: `rect_collide` is exactly the standard four-strict-inequality
axis-aligned overlap test; for rectangles of positive width and height it
answers true precisely when the rectangles intersect with positive extent
on both axes, and any equality among the four comparisons (edge or
corner touching) yields false. -/
theorem rect_collide_spec (x1 y1 w1 h1 x2 y2 w2 h2 : Int) :
    (rect_collide x1 y1 w1 h1 x2 y2 w2 h2 = true ↔
      (x1 < x2 + w2 ∧ x1 + w1 > x2 ∧ y1 < y2 + h2 ∧ y1 + h1 > y2)) ∧
    (0 < w1 → 0 < h1 → 0 < w2 → 0 < h2 →
      (rect_collide x1 y1 w1 h1 x2 y2 w2 h2 = true ↔
        (max x1 x2 < min (x1 + w1) (x2 + w2) ∧ max y1 y2 < min (y1 + h1) (y2 + h2)))) ∧
    ((x1 = x2 + w2 ∨ x1 + w1 = x2 ∨ y1 = y2 + h2 ∨ y1 + h1 = y2) →
      rect_collide x1 y1 w1 h1 x2 y2 w2 h2 = false) := by
  refine ⟨?_, fun hw1 hh1 hw2 hh2 => ?_, fun h => ?_⟩ <;>
    simp only [rect_collide, Bool.and_eq_true, decide_eq_true_eq, max_lt_iff, lt_min_iff,
      Bool.and_eq_false_iff, decide_eq_false_iff_not] <;>
    omega

theorem rect_collide_spec_witness :
    (0 < (2 : Int) ∧ rect_collide 0 0 2 2 1 1 2 2 = true ∧
      max (0 : Int) 1 < min (0 + 2) (1 + 2)) ∧ rect_collide 0 0 2 2 2 0 2 2 = false :=
  ⟨⟨by decide,
    by decide,
    (((rect_collide_spec 0 0 2 2 1 1 2 2).2.1 (by decide) (by decide) (by decide)
      (by decide)).mp (by decide)).1⟩,
   (rect_collide_spec 0 0 2 2 2 0 2 2).2.2 (Or.inr (Or.inl (by decide)))⟩

/-- C9: the LEFT and RIGHT keydown handlers always overwrite the player
velocity with -5 and +5; a LEFT keyup zeroes the velocity only when the
velocity is negative and a RIGHT keyup only when it is positive, and a
keyup that is not driving the current velocity leaves the whole state
unchanged. -/
theorem key_velocity_spec (s : GameState) :
    (pressLeft s).player.vx = -playerSpeed ∧
    (pressRight s).player.vx = playerSpeed ∧
    (s.player.vx < 0 → (releaseLeft s).player.vx = 0) ∧
    (0 ≤ s.player.vx → releaseLeft s = s) ∧
    (0 < s.player.vx → (releaseRight s).player.vx = 0) ∧
    (s.player.vx ≤ 0 → releaseRight s = s) := by
  refine ⟨rfl, rfl, fun h => ?_, fun h => ?_, fun h => ?_, fun h => ?_⟩
  · simp only [releaseLeft]; rw [if_pos h]
  · simp only [releaseLeft]; rw [if_neg (by omega)]
  · simp only [releaseRight]; rw [if_pos h]
  · simp only [releaseRight]; rw [if_neg (by omega)]

theorem key_velocity_spec_witness :
    (releaseLeft (pressLeft initState)).player.vx = 0 ∧
    releaseRight (pressLeft initState) = pressLeft initState :=
  ⟨(key_velocity_spec (pressLeft initState)).2.2.1 (by decide),
   (key_velocity_spec (pressLeft initState)).2.2.2.2.2 (by decide)⟩

/-- C5: pressing R in a game-over state rebuilds exactly the
process-start state (score 0, 3 lives, direction +1, centered stationary
player, 5 inactive bullets, 8 aliens active on the starting grid), and in
a running game R changes nothing. -/
theorem restart_spec (s : GameState) :
    (s.gameOver = true →
      restartKey s = initState ∧
      (restartKey s).score = 0 ∧
      (restartKey s).lives = 3 ∧
      (restartKey s).gameOver = false ∧
      (restartKey s).dir = 1 ∧
      (restartKey s).player.x = (windowWidth - playerWidth) / 2 ∧
      (restartKey s).player.y = windowHeight - (playerHeight + 40) ∧
      (restartKey s).player.vx = 0 ∧
      (restartKey s).bullets.length = 5 ∧
      (∀ b ∈ (restartKey s).bullets, b.active = false) ∧
      (restartKey s).aliens.length = 8 ∧
      (∀ i (hi : i < (restartKey s).aliens.length),
        (restartKey s).aliens.get ⟨i, hi⟩ =
          { x := 50 + 50 * (i : Int), y := 50, w := 32, h := 32, active := true })) ∧
    (s.gameOver = false → restartKey s = s) := by
  constructor
  · intro hg
    have hre : restartKey s = initState := by
      unfold restartKey
      rw [if_pos hg]
      rfl
    rw [hre]
    refine ⟨rfl, rfl, rfl, rfl, rfl, rfl, rfl, rfl, rfl, by decide, rfl, ?_⟩
    intro i hi
    have hi8 : i < 8 := hi
    interval_cases i <;> rfl
  · intro hg
    simp [restartKey, hg]

theorem restart_spec_witness : restartKey overDemo = initState :=
  ((restart_spec overDemo).1 rfl).1

theorem forall2_map_self {R : Alien → Alien → Prop} (f : Alien → Alien)
    (h : ∀ a, R a (f a)) (l : List Alien) : List.Forall₂ R l (l.map f) := by
  induction l with
  | nil => exact List.Forall₂.nil
  | cons a rest ih => exact List.Forall₂.cons (h a) ih

/-- C1: the descend-or-translate decision is all-or-nothing for the whole
row: the formation-movement phase descends exactly when some active alien
would cross a horizontal boundary, and then it flips the direction sign,
adds 20 to every active alien's y and changes no x; otherwise it adds
speed times direction to every active alien's x and changes no y and not
the direction. Inactive aliens never move. -/
theorem formation_move_spec (s : GameState) (hg : s.gameOver = false) :
    (needDescend s = true ↔
      ∃ a ∈ s.aliens, a.active = true ∧
        (a.x + alienSpeed * s.dir < 0 ∨ windowWidth < a.x + alienSpeed * s.dir + a.w)) ∧
    (needDescend s = true →
      (moveAliens s).dir = -s.dir ∧
      List.Forall₂ (fun a a2 =>
          a2.x = a.x ∧ a2.w = a.w ∧ a2.h = a.h ∧ a2.active = a.active ∧
          (a.active = true → a2.y = a.y + alienDescent) ∧
          (a.active = false → a2.y = a.y))
        s.aliens (moveAliens s).aliens) ∧
    (needDescend s = false →
      (moveAliens s).dir = s.dir ∧
      List.Forall₂ (fun a a2 =>
          a2.y = a.y ∧ a2.w = a.w ∧ a2.h = a.h ∧ a2.active = a.active ∧
          (a.active = true → a2.x = a.x + alienSpeed * s.dir) ∧
          (a.active = false → a2.x = a.x))
        s.aliens (moveAliens s).aliens) := by
  refine ⟨?_, fun hd => ?_, fun hd => ?_⟩
  · simp only [needDescend, List.any_eq_true, alienAtBoundary, Bool.and_eq_true,
      Bool.or_eq_true, decide_eq_true_eq]
  · unfold moveAliens
    rw [if_pos hd]
    refine ⟨rfl, ?_⟩
    refine forall2_map_self _ (fun a => ?_) s.aliens
    by_cases ha : a.active = true
    · simp [ha]
    · rw [Bool.not_eq_true] at ha
      simp [ha]
  · unfold moveAliens
    rw [if_neg (by simp [hd])]
    refine ⟨rfl, ?_⟩
    refine forall2_map_self _ (fun a => ?_) s.aliens
    by_cases ha : a.active = true
    · simp [ha]
    · rw [Bool.not_eq_true] at ha
      simp [ha]

theorem formation_move_spec_witness :
    (moveAliens descendDemo).dir = -descendDemo.dir :=
  (((formation_move_spec descendDemo rfl).2.1) (by decide)).1

theorem waveResetAliens_length (i : Nat) (l : List Alien) :
    (waveResetAliens i l).length = l.length := by
  induction l generalizing i with
  | nil => rfl
  | cons a rest ih => simp [waveResetAliens, ih]

theorem waveResetAliens_mem (i : Nat) (l : List Alien) (a : Alien)
    (ha : a ∈ waveResetAliens i l) : a.active = true ∧ a.y = alienStartY := by
  induction l generalizing i with
  | nil => simp [waveResetAliens] at ha
  | cons b rest ih =>
    simp only [waveResetAliens, List.mem_cons] at ha
    rcases ha with rfl | ha
    · exact ⟨rfl, rfl⟩
    · exact ih (i + 1) ha

theorem waveResetAliens_get (l : List Alien) (i j : Nat)
    (hj : j < (waveResetAliens i l).length) (hj2 : j < l.length) :
    (waveResetAliens i l).get ⟨j, hj⟩ =
      { l.get ⟨j, hj2⟩ with active := true,
                            x := alienStartX + alienSpacing * ((i + j : Nat) : Int),
                            y := alienStartY } := by
  induction l generalizing i j with
  | nil => exact absurd hj2 (by simp)
  | cons a rest ih =>
    cases j with
    | zero => simp [waveResetAliens]
    | succ n =>
      have h1 : n < (waveResetAliens (i + 1) rest).length := by
        rw [waveResetAliens_length]
        exact Nat.lt_of_succ_lt_succ hj2
      have h2 : n < rest.length := Nat.lt_of_succ_lt_succ hj2
      show (waveResetAliens (i + 1) rest).get ⟨n, h1⟩ = _
      rw [ih (i + 1) n h1 h2]
      show _ = { rest.get ⟨n, h2⟩ with active := true,
                                       x := alienStartX + alienSpacing * ((i + (n + 1) : Nat) : Int),
                                       y := alienStartY }
      push_cast
      ring_nf

theorem rowReachStep_lives_cases (s : GameState) :
    (rowReachStep s).lives = s.lives ∨ (rowReachStep s).lives = s.lives - 1 := by
  unfold rowReachStep
  split
  · split
    · right; rfl
    · right; rfl
  · left; rfl

theorem frameUpdate_lives_bounds (s : GameState) :
    s.lives - 1 ≤ (frameUpdate s).lives ∧ (frameUpdate s).lives ≤ s.lives := by
  unfold frameUpdate
  split
  · simp only [victoryCheck_lives]
    omega
  · have h := rowReachStep_lives_cases (collideStep (moveAliens (moveBullets (movePlayer s))))
    simp only [collideStep_lives, moveAliens_lives, moveBullets_lives, movePlayer_lives] at h
    simp only [victoryCheck_lives]
    omega

/-- C2: a frame decrements lives at most once, however many aliens stand
at the player row; when the row-reach event fires, lives drop by exactly
one and the score is untouched; if no life remains the game-over flag is
set and aliens and bullets are left alone, otherwise every alien is
reactivated at its starting grid slot (50+50i, 50) and every bullet is
deactivated. -/
theorem row_reach_spec (s : GameState) (hg : s.gameOver = false) :
    (s.lives - 1 ≤ (frameUpdate s).lives ∧ (frameUpdate s).lives ≤ s.lives) ∧
    (s.aliens.any (reachedRow s.player.y) = false → rowReachStep s = s) ∧
    (s.aliens.any (reachedRow s.player.y) = true →
      (rowReachStep s).lives = s.lives - 1 ∧
      (rowReachStep s).score = s.score ∧
      (s.lives - 1 ≤ 0 →
        (rowReachStep s).gameOver = true ∧
        (rowReachStep s).aliens = s.aliens ∧
        (rowReachStep s).bullets = s.bullets) ∧
      (0 < s.lives - 1 →
        (rowReachStep s).gameOver = false ∧
        (∀ b ∈ (rowReachStep s).bullets, b.active = false) ∧
        (rowReachStep s).aliens.length = s.aliens.length ∧
        (∀ i (hi : i < (rowReachStep s).aliens.length) (hi2 : i < s.aliens.length),
          (rowReachStep s).aliens.get ⟨i, hi⟩ =
            { s.aliens.get ⟨i, hi2⟩ with active := true, x := 50 + 50 * (i : Int), y := 50 }))) := by
  refine ⟨frameUpdate_lives_bounds s, fun hno => ?_, fun hre => ?_⟩
  · unfold rowReachStep
    rw [if_neg (by simp [hno])]
  · unfold rowReachStep
    rw [if_pos hre]
    by_cases hl : s.lives - 1 ≤ 0
    · rw [if_pos hl]
      exact ⟨rfl, rfl, fun _ => ⟨rfl, rfl, rfl⟩, fun hc => absurd hc (by omega)⟩
    · rw [if_neg hl]
      refine ⟨rfl, rfl, fun hc => absurd hc (by omega), fun _ => ⟨hg, ?_, ?_, ?_⟩⟩
      · intro b hb
        simp only [List.mem_map] at hb
        obtain ⟨b0, _, rfl⟩ := hb
        rfl
      · exact waveResetAliens_length 0 s.aliens
      · intro i hi hi2
        have := waveResetAliens_get s.aliens 0 i hi hi2
        rw [this]
        simp [alienStartX, alienSpacing, alienStartY]

theorem row_reach_spec_witness :
    (rowReachStep reachDemo).lives = reachDemo.lives - 1 :=
  (((row_reach_spec reachDemo rfl).2.2) (by decide)).1

/-- C10: a wave reset never touches the formation direction: in a frame
where the row-reach event fires with lives remaining, the direction at
the end of the frame is the direction produced by the formation-movement
phase of that same frame; only resetGame sets the direction back to +1. -/
theorem wave_reset_keeps_dir (s : GameState) (hg : s.gameOver = false)
    (htrig : ((collideStep (moveAliens (moveBullets (movePlayer s)))).aliens.any
      (reachedRow (collideStep (moveAliens (moveBullets (movePlayer s)))).player.y)) = true)
    (hlives : 0 < s.lives - 1) :
    (frameUpdate s).dir = (moveAliens (moveBullets (movePlayer s))).dir := by
  unfold frameUpdate
  rw [if_neg (by simp [hg])]
  simp only [victoryCheck_dir, rowReachStep_dir, collideStep_dir]

theorem wave_reset_keeps_dir_witness :
    (frameUpdate reachDemo).dir = (moveAliens (moveBullets (movePlayer reachDemo))).dir :=
  wave_reset_keeps_dir reachDemo rfl (by decide) (by decide)

theorem hitFirst_none_iff (b : Bullet) (l : List Alien) :
    hitFirst b l = none ↔ ∀ a ∈ l, a.active = true → overlapsB b a = false := by
  induction l with
  | nil => simp [hitFirst]
  | cons a rest ih =>
    simp only [hitFirst]
    by_cases hc : (a.active && rect_collide b.x b.y b.w b.h a.x a.y a.w a.h) = true
    · rw [if_pos hc]
      rw [Bool.and_eq_true] at hc
      constructor
      · intro h
        exact absurd h (by simp)
      · intro h
        have h2 := h a (List.mem_cons_self a rest) hc.1
        rw [overlapsB, hc.2] at h2
        exact absurd h2 (by simp)
    · rw [if_neg hc]
      cases hrest : hitFirst b rest with
      | some rest2 =>
        constructor
        · intro h
          exact absurd h (by simp)
        · intro h
          have hres : hitFirst b rest = none :=
            ih.mpr (fun x hx hax => h x (List.mem_cons_of_mem a hx) hax)
          rw [hres] at hrest
          exact absurd hrest (by simp)
      | none =>
        constructor
        · intro _ x hx hax
          rcases List.mem_cons.mp hx with rfl | hx2
          · rw [overlapsB]
            simp [hax] at hc
            exact hc
          · exact ih.mp hrest x hx2 hax
        · intro _
          rfl

theorem hitFirst_some_spec (b : Bullet) (l : List Alien) (l2 : List Alien)
    (h : hitFirst b l = some l2) :
    ∃ i, ∃ hi : i < l.length,
      (l.get ⟨i, hi⟩).active = true ∧ overlapsB b (l.get ⟨i, hi⟩) = true ∧
      (∀ j (hj : j < l.length), j < i →
        ((l.get ⟨j, hj⟩).active = true ∧ overlapsB b (l.get ⟨j, hj⟩) = true → False)) ∧
      l2 = l.set i { l.get ⟨i, hi⟩ with active := false } := by
  induction l generalizing l2 with
  | nil => simp [hitFirst] at h
  | cons a rest ih =>
    simp only [hitFirst] at h
    by_cases hc : (a.active && rect_collide b.x b.y b.w b.h a.x a.y a.w a.h) = true
    · rw [if_pos hc] at h
      rw [Bool.and_eq_true] at hc
      refine ⟨0, Nat.succ_pos _, hc.1, hc.2, fun j hj hj0 => absurd hj0 (by omega), ?_⟩
      rw [← Option.some.inj h]
      rfl
    · rw [if_neg hc] at h
      cases hrest : hitFirst b rest with
      | none =>
        rw [hrest] at h
        exact absurd h (by simp)
      | some rest2 =>
        rw [hrest] at h
        have hl2 : l2 = a :: rest2 := (Option.some.inj h).symm
        obtain ⟨i, hi, hact, hov, hprev, hset⟩ := ih rest2 hrest
        refine ⟨i + 1, Nat.succ_lt_succ hi, hact, hov, ?_, ?_⟩
        · intro j hj hji
          cases j with
          | zero =>
            intro hcontra
            apply hc
            rw [Bool.and_eq_true]
            exact ⟨hcontra.1, hcontra.2⟩
          | succ m =>
            intro hcontra
            exact hprev m (Nat.lt_of_succ_lt_succ hj) (Nat.lt_of_succ_lt_succ hji) hcontra
        · rw [hl2, hset]
          rfl

theorem hitFirst_length (b : Bullet) (l l2 : List Alien) (h : hitFirst b l = some l2) :
    l2.length = l.length := by
  obtain ⟨i, hi, _, _, _, hset⟩ := hitFirst_some_spec b l l2 h
  rw [hset, List.length_set]

theorem subAliens_refl (l : List Alien) : subAliens l l :=
  fun a ha => ⟨a, ha, rfl, id⟩

theorem subAliens_trans {l3 l2 l1 : List Alien} (h32 : subAliens l3 l2)
    (h21 : subAliens l2 l1) : subAliens l3 l1 := by
  intro a3 h3
  obtain ⟨a2, h2, hy32, hact32⟩ := h32 a3 h3
  obtain ⟨a1, h1, hy21, hact21⟩ := h21 a2 h2
  exact ⟨a1, h1, hy32.trans hy21, fun hh => hact21 (hact32 hh)⟩

theorem hitFirst_sub (b : Bullet) (l l2 : List Alien) (h : hitFirst b l = some l2) :
    subAliens l2 l := by
  induction l generalizing l2 with
  | nil => simp [hitFirst] at h
  | cons a rest ih =>
    simp only [hitFirst] at h
    by_cases hc : (a.active && rect_collide b.x b.y b.w b.h a.x a.y a.w a.h) = true
    · rw [if_pos hc] at h
      rw [← Option.some.inj h]
      intro a2 ha2
      rcases List.mem_cons.mp ha2 with rfl | hmem
      · exact ⟨a, List.mem_cons_self a rest, rfl, fun hff => by simp at hff⟩
      · exact ⟨a2, List.mem_cons_of_mem a hmem, rfl, id⟩
    · rw [if_neg hc] at h
      cases hrest : hitFirst b rest with
      | none =>
        rw [hrest] at h
        exact absurd h (by simp)
      | some rest2 =>
        rw [hrest] at h
        rw [← Option.some.inj h]
        intro a2 ha2
        rcases List.mem_cons.mp ha2 with rfl | hmem
        · exact ⟨a2, List.mem_cons_self a2 rest, rfl, id⟩
        · obtain ⟨a1, h1, hy, hact⟩ := ih rest2 hrest a2 hmem
          exact ⟨a1, List.mem_cons_of_mem a h1, hy, hact⟩

theorem hitFirst_alive (b : Bullet) (l l2 : List Alien) (h : hitFirst b l = some l2) :
    l2.countP (fun a => a.active) + 1 = l.countP (fun a => a.active) := by
  induction l generalizing l2 with
  | nil => simp [hitFirst] at h
  | cons a rest ih =>
    simp only [hitFirst] at h
    by_cases hc : (a.active && rect_collide b.x b.y b.w b.h a.x a.y a.w a.h) = true
    · rw [if_pos hc] at h
      rw [Bool.and_eq_true] at hc
      rw [← Option.some.inj h]
      simp [List.countP_cons, hc.1]
    · rw [if_neg hc] at h
      cases hrest : hitFirst b rest with
      | none =>
        rw [hrest] at h
        exact absurd h (by simp)
      | some rest2 =>
        rw [hrest] at h
        rw [← Option.some.inj h]
        have hrec := ih rest2 hrest
        simp only [List.countP_cons]
        omega

theorem collideBullets_facts (bs : List Bullet) (l : List Alien) (sc : Int) :
    (collideBullets bs l sc).2.1.length = l.length ∧
    subAliens (collideBullets bs l sc).2.1 l ∧
    (collideBullets bs l sc).2.2 +
        10 * ((collideBullets bs l sc).2.1.countP (fun a => a.active) : Int) =
      sc + 10 * (l.countP (fun a => a.active) : Int) ∧
    sc ≤ (collideBullets bs l sc).2.2 ∧
    (collideBullets bs l sc).1.length = bs.length := by
  induction bs generalizing l sc with
  | nil => exact ⟨rfl, subAliens_refl l, rfl, le_refl sc, rfl⟩
  | cons b rest ih =>
    simp only [collideBullets]
    by_cases hb : b.active = true
    · rw [if_pos hb]
      cases hhit : hitFirst b l with
      | none =>
        dsimp only
        obtain ⟨h1, h2, h3, h4, h5⟩ := ih l sc
        exact ⟨h1, h2, h3, h4, by simp [h5]⟩
      | some l2 =>
        dsimp only
        obtain ⟨h1, h2, h3, h4, h5⟩ := ih l2 (sc + 10)
        have hlen := hitFirst_length b l l2 hhit
        have hsub := hitFirst_sub b l l2 hhit
        have halive := hitFirst_alive b l l2 hhit
        refine ⟨h1.trans hlen, subAliens_trans h2 hsub, ?_, by omega, by simp [h5]⟩
        omega
    · rw [if_neg hb]
      dsimp only
      obtain ⟨h1, h2, h3, h4, h5⟩ := ih l sc
      exact ⟨h1, h2, h3, h4, by simp [h5]⟩

theorem collideStep_score_eq (s : GameState) :
    (collideStep s).score = (collideBullets s.bullets s.aliens s.score).2.2 := rfl

theorem collideStep_aliens_eq (s : GameState) :
    (collideStep s).aliens = (collideBullets s.bullets s.aliens s.score).2.1 := rfl

theorem collideStep_bullets_eq (s : GameState) :
    (collideStep s).bullets = (collideBullets s.bullets s.aliens s.score).1 := rfl

theorem countP_active_map (l : List Alien) (f : Alien → Alien)
    (h : ∀ a, (f a).active = a.active) :
    (l.map f).countP (fun a => a.active) = l.countP (fun a => a.active) := by
  induction l with
  | nil => rfl
  | cons a rest ih => simp [List.countP_cons, ih, h a]

theorem moveAliens_alive (s : GameState) :
    (moveAliens s).aliens.countP (fun a => a.active) =
      s.aliens.countP (fun a => a.active) := by
  unfold moveAliens
  split
  · exact countP_active_map s.aliens _
      (fun a => by by_cases ha : a.active = true <;> simp [ha])
  · exact countP_active_map s.aliens _
      (fun a => by by_cases ha : a.active = true <;> simp [ha])

theorem frameUpdate_score_mono (s : GameState) : s.score ≤ (frameUpdate s).score := by
  unfold frameUpdate
  split
  · simp
  · simp only [victoryCheck_score, rowReachStep_score, collideStep_score_eq]
    have h := (collideBullets_facts (moveAliens (moveBullets (movePlayer s))).bullets
      (moveAliens (moveBullets (movePlayer s))).aliens
      (moveAliens (moveBullets (movePlayer s))).score).2.2.2.1
    simpa using h

theorem rowReachStep_cases (s : GameState) :
    rowReachStep s = s ∨ (rowReachStep s).lives = s.lives - 1 := by
  unfold rowReachStep
  split
  · split
    · right; rfl
    · right; rfl
  · left; rfl

theorem freshInv_init : freshInv initState := by
  unfold freshInv
  exact ⟨by decide, fun _ => by decide⟩

theorem freshInv_frame (s : GameState) (h : freshInv s) : freshInv (frameUpdate s) := by
  obtain ⟨h3, h80⟩ := h
  unfold frameUpdate
  split
  · rename_i hg
    rw [victoryCheck_of_gameOver s hg]
    exact ⟨h3, h80⟩
  · have hquant := (collideBullets_facts (moveAliens (moveBullets (movePlayer s))).bullets
      (moveAliens (moveBullets (movePlayer s))).aliens
      (moveAliens (moveBullets (movePlayer s))).score).2.2.1
    rw [← collideStep_score_eq, ← collideStep_aliens_eq] at hquant
    rw [moveAliens_score, moveBullets_score, movePlayer_score] at hquant
    have halien : (moveAliens (moveBullets (movePlayer s))).aliens.countP (fun a => a.active) =
        s.aliens.countP (fun a => a.active) := by
      rw [moveAliens_alive]
      simp
    rcases rowReachStep_cases (collideStep (moveAliens (moveBullets (movePlayer s)))) with
      heq | hlv
    · rw [heq]
      constructor
      · simp only [victoryCheck_lives, collideStep_lives, moveAliens_lives, moveBullets_lives,
          movePlayer_lives]
        exact h3
      · intro hl3
        simp only [victoryCheck_lives, collideStep_lives, moveAliens_lives, moveBullets_lives,
          movePlayer_lives] at hl3
        simp only [victoryCheck_score, victoryCheck_aliens]
        rw [hquant, halien]
        exact h80 hl3
    · constructor
      · simp only [victoryCheck_lives]
        rw [hlv]
        simp only [collideStep_lives, moveAliens_lives, moveBullets_lives, movePlayer_lives]
        omega
      · intro hl3
        simp only [victoryCheck_lives] at hl3
        rw [hlv] at hl3
        simp only [collideStep_lives, moveAliens_lives, moveBullets_lives,
          movePlayer_lives] at hl3
        omega

theorem freshInv_applyCmd (s : GameState) (c : Cmd) (hc : c ≠ Cmd.restart)
    (h : freshInv s) : freshInv (applyCmd s c) := by
  obtain ⟨h3, h80⟩ := h
  cases c with
  | frame => exact freshInv_frame s ⟨h3, h80⟩
  | fire =>
    show freshInv (fireBullet s)
    unfold fireBullet
    split
    · exact ⟨h3, h80⟩
    · exact ⟨h3, h80⟩
  | leftDown => exact ⟨h3, h80⟩
  | rightDown => exact ⟨h3, h80⟩
  | leftUp =>
    show freshInv (releaseLeft s)
    unfold releaseLeft
    split
    · exact ⟨h3, h80⟩
    · exact ⟨h3, h80⟩
  | rightUp =>
    show freshInv (releaseRight s)
    unfold releaseRight
    split
    · exact ⟨h3, h80⟩
    · exact ⟨h3, h80⟩
  | restart => exact absurd rfl hc

theorem freshInv_run (cs : List Cmd) (s : GameState) (hnr : Cmd.restart ∉ cs)
    (h : freshInv s) : freshInv (run s cs) := by
  induction cs generalizing s with
  | nil => exact h
  | cons c rest ih =>
    show freshInv (run (applyCmd s c) rest)
    exact ih (applyCmd s c) (fun hmem => hnr (List.mem_cons_of_mem c hmem))
      (freshInv_applyCmd s c (fun hceq => hnr (hceq ▸ List.mem_cons_self c rest)) ⟨h.1, h.2⟩)

theorem collideBullets_hit_step (b : Bullet) (bs : List Bullet) (l l2 : List Alien)
    (sc : Int) (hb : b.active = true) (hhit : hitFirst b l = some l2) :
    (collideBullets (b :: bs) l sc).1 =
      { b with active := false } :: (collideBullets bs l2 (sc + 10)).1 ∧
    (collideBullets (b :: bs) l sc).2.1 = (collideBullets bs l2 (sc + 10)).2.1 ∧
    (collideBullets (b :: bs) l sc).2.2 = (collideBullets bs l2 (sc + 10)).2.2 := by
  simp only [collideBullets]
  rw [if_pos hb, hhit]
  exact ⟨rfl, rfl, rfl⟩

theorem collideBullets_skip_step (b : Bullet) (bs : List Bullet) (l : List Alien)
    (sc : Int) (h : b.active = false ∨ hitFirst b l = none) :
    (collideBullets (b :: bs) l sc).1 = b :: (collideBullets bs l sc).1 ∧
    (collideBullets (b :: bs) l sc).2.1 = (collideBullets bs l sc).2.1 ∧
    (collideBullets (b :: bs) l sc).2.2 = (collideBullets bs l sc).2.2 := by
  simp only [collideBullets]
  rcases h with hb | hn
  · rw [if_neg (by simp [hb])]
    exact ⟨rfl, rfl, rfl⟩
  · by_cases hb : b.active = true
    · rw [if_pos hb, hn]
      exact ⟨rfl, rfl, rfl⟩
    · rw [if_neg hb]
      exact ⟨rfl, rfl, rfl⟩

theorem collideBullets_bullet_facts (bs : List Bullet) (l : List Alien) (sc : Int) :
    List.Forall₂ (fun b b2 => b2.x = b.x ∧ b2.y = b.y ∧ b2.w = b.w ∧ b2.h = b.h ∧
        (b.active = false → b2 = b) ∧ (b2 = b ∨ (b.active = true ∧ b2.active = false)))
      bs (collideBullets bs l sc).1 ∧
    (collideBullets bs l sc).2.2 +
        10 * ((collideBullets bs l sc).1.countP (fun b => b.active) : Int) =
      sc + 10 * (bs.countP (fun b => b.active) : Int) := by
  induction bs generalizing l sc with
  | nil => exact ⟨List.Forall₂.nil, by simp [collideBullets]⟩
  | cons b rest ih =>
    simp only [collideBullets]
    by_cases hb : b.active = true
    · rw [if_pos hb]
      cases hhit : hitFirst b l with
      | none =>
        dsimp only
        obtain ⟨hF, hE⟩ := ih l sc
        refine ⟨List.Forall₂.cons
          ⟨rfl, rfl, rfl, rfl, fun hf => by simp [hb] at hf, Or.inl rfl⟩ hF, ?_⟩
        simp only [List.countP_cons, hb]
        push_cast
        omega
      | some l2 =>
        dsimp only
        obtain ⟨hF, hE⟩ := ih l2 (sc + 10)
        refine ⟨List.Forall₂.cons
          ⟨rfl, rfl, rfl, rfl, fun hf => by simp [hb] at hf, Or.inr ⟨hb, rfl⟩⟩ hF, ?_⟩
        simp only [List.countP_cons, hb]
        push_cast
        omega
    · rw [if_neg hb]
      dsimp only
      obtain ⟨hF, hE⟩ := ih l sc
      rw [Bool.not_eq_true] at hb
      refine ⟨List.Forall₂.cons ⟨rfl, rfl, rfl, rfl, fun _ => rfl, Or.inl rfl⟩ hF, ?_⟩
      simp only [List.countP_cons, hb]
      push_cast
      omega

/-- C4: each active bullet scans the aliens in increasing index order and
the first overlapping active alien is the unique alien it deactivates
(ties broken by array index); on such a hit the bullet itself is
deactivated, the score grows by exactly 10, and the scan stops, the
remaining bullets seeing the updated alien row, while a bullet with no
overlap (or an inactive one) changes nothing; over a whole pass every
bullet either survives unchanged or is deactivated in place, the score
grows by exactly 10 per deactivated bullet, and bullets and aliens are
deactivated in equal numbers; a frame never decreases the score; and a
game that never loses a life and ends with every alien destroyed has
score exactly 80 (10 per alien). -/
theorem bullet_collision_spec :
    (∀ (b : Bullet) (l : List Alien),
      (hitFirst b l = none ↔ ∀ a ∈ l, a.active = true → overlapsB b a = false) ∧
      (∀ l2, hitFirst b l = some l2 →
        ∃ i, ∃ hi : i < l.length,
          (l.get ⟨i, hi⟩).active = true ∧ overlapsB b (l.get ⟨i, hi⟩) = true ∧
          (∀ j (hj : j < l.length), j < i →
            ((l.get ⟨j, hj⟩).active = true ∧ overlapsB b (l.get ⟨j, hj⟩) = true → False)) ∧
          l2 = l.set i { l.get ⟨i, hi⟩ with active := false })) ∧
    (∀ (b : Bullet) (bs : List Bullet) (l l2 : List Alien) (sc : Int),
      b.active = true → hitFirst b l = some l2 →
      (collideBullets (b :: bs) l sc).1 =
        { b with active := false } :: (collideBullets bs l2 (sc + 10)).1 ∧
      (collideBullets (b :: bs) l sc).2.1 = (collideBullets bs l2 (sc + 10)).2.1 ∧
      (collideBullets (b :: bs) l sc).2.2 = (collideBullets bs l2 (sc + 10)).2.2) ∧
    (∀ (b : Bullet) (bs : List Bullet) (l : List Alien) (sc : Int),
      b.active = false ∨ hitFirst b l = none →
      (collideBullets (b :: bs) l sc).1 = b :: (collideBullets bs l sc).1 ∧
      (collideBullets (b :: bs) l sc).2.1 = (collideBullets bs l sc).2.1 ∧
      (collideBullets (b :: bs) l sc).2.2 = (collideBullets bs l sc).2.2) ∧
    (∀ (bs : List Bullet) (l : List Alien) (sc : Int),
      List.Forall₂ (fun b b2 => b2.x = b.x ∧ b2.y = b.y ∧ b2.w = b.w ∧ b2.h = b.h ∧
          (b.active = false → b2 = b) ∧ (b2 = b ∨ (b.active = true ∧ b2.active = false)))
        bs (collideBullets bs l sc).1 ∧
      (collideBullets bs l sc).2.2 +
          10 * ((collideBullets bs l sc).1.countP (fun b => b.active) : Int) =
        sc + 10 * (bs.countP (fun b => b.active) : Int) ∧
      (bs.countP (fun b => b.active) : Int) -
          ((collideBullets bs l sc).1.countP (fun b => b.active) : Int) =
        (l.countP (fun a => a.active) : Int) -
          ((collideBullets bs l sc).2.1.countP (fun a => a.active) : Int)) ∧
    (∀ s : GameState, s.score ≤ (frameUpdate s).score) ∧
    (∀ cs : List Cmd, Cmd.restart ∉ cs →
      (run initState cs).lives = 3 →
      (∀ a ∈ (run initState cs).aliens, a.active = false) →
      (run initState cs).score = 80) := by
  refine ⟨fun b l => ⟨hitFirst_none_iff b l, fun l2 h => hitFirst_some_spec b l l2 h⟩,
    fun b bs l l2 sc hb hhit => collideBullets_hit_step b bs l l2 sc hb hhit,
    fun b bs l sc h => collideBullets_skip_step b bs l sc h,
    fun bs l sc => ⟨(collideBullets_bullet_facts bs l sc).1,
      (collideBullets_bullet_facts bs l sc).2, ?_⟩,
    frameUpdate_score_mono, fun cs hnr hl hdead => ?_⟩
  · have hB := (collideBullets_bullet_facts bs l sc).2
    have hA := (collideBullets_facts bs l sc).2.2.1
    omega
  · obtain ⟨h3, h80⟩ := freshInv_run cs initState hnr freshInv_init
    have hcount : (run initState cs).aliens.countP (fun a => a.active) = 0 := by
      rw [List.countP_eq_zero]
      intro a ha
      simp [hdead a ha]
    have hfin := h80 hl
    rw [hcount] at hfin
    simpa using hfin

theorem bullet_collision_spec_witness :
    (collideBullets [demoBullet] initAliens 0).1 = [{ demoBullet with active := false }] ∧
    (run initState winScript).score = 80 :=
  ⟨(bullet_collision_spec.2.1 demoBullet [] initAliens demoHitAliens 0 rfl (by decide)).1,
   bullet_collision_spec.2.2.2.2.2 winScript (by decide) (by decide) (by decide)⟩

theorem rowAligned_map (l : List Alien) (f : Alien → Alien) (c : Int)
    (hact : ∀ a, (f a).active = a.active)
    (hy : ∀ a, a.active = true → (f a).y = a.y + c)
    (h : rowAligned l) : rowAligned (l.map f) := by
  intro a2 ha2 hact2 b2 hb2 hact3
  obtain ⟨a, ha, rfl⟩ := List.mem_map.mp ha2
  obtain ⟨b, hb, rfl⟩ := List.mem_map.mp hb2
  rw [hact] at hact2
  rw [hact] at hact3
  rw [hy a hact2, hy b hact3, h a ha hact2 b hb hact3]

theorem rowAligned_sub {l2 l : List Alien} (hs : subAliens l2 l) (h : rowAligned l) :
    rowAligned l2 := by
  intro a2 ha2 hact2 b2 hb2 hact3
  obtain ⟨a, ha, hya, hia⟩ := hs a2 ha2
  obtain ⟨b, hb, hyb, hib⟩ := hs b2 hb2
  rw [hya, hyb]
  exact h a ha (hia hact2) b hb (hib hact3)

theorem moveAliens_aligned (s : GameState) (h : rowAligned s.aliens) :
    rowAligned (moveAliens s).aliens := by
  unfold moveAliens
  split
  · exact rowAligned_map s.aliens _ alienDescent
      (fun a => by by_cases ha : a.active = true <;> simp [ha])
      (fun a ha => by simp [ha]) h
  · exact rowAligned_map s.aliens _ 0
      (fun a => by by_cases ha : a.active = true <;> simp [ha])
      (fun a ha => by simp [ha]) h

theorem waveResetAliens_aligned (i : Nat) (l : List Alien) :
    rowAligned (waveResetAliens i l) := by
  intro a ha _ b hb _
  rw [(waveResetAliens_mem i l a ha).2, (waveResetAliens_mem i l b hb).2]

theorem waveResetAliens_exists_active (i : Nat) (l : List Alien) (hne : l ≠ []) :
    ∃ x ∈ waveResetAliens i l, x.active = true := by
  cases l with
  | nil => exact absurd rfl hne
  | cons a rest =>
    exact ⟨{ a with active := true,
                    x := alienStartX + alienSpacing * (i : Int),
                    y := alienStartY },
           List.mem_cons_self _ _, rfl⟩

theorem reached_exists_active (py : Int) (l : List Alien)
    (h : l.any (reachedRow py) = true) : ∃ a ∈ l, a.active = true := by
  rw [List.any_eq_true] at h
  obtain ⟨a, ha, hr⟩ := h
  rw [reachedRow, Bool.and_eq_true] at hr
  exact ⟨a, ha, hr.1⟩

theorem inv_initState : Inv initState := by
  unfold Inv rowAligned
  exact ⟨by decide, by decide, fun _ => by decide,
    fun hcontra => absurd hcontra (by decide), by decide⟩

theorem inv_frameUpdate (s : GameState) (h : Inv s) : Inv (frameUpdate s) := by
  obtain ⟨hbl, hal, hlv, hov, hrow⟩ := h
  unfold frameUpdate
  split
  · rename_i hg
    rw [victoryCheck_of_gameOver s hg]
    exact ⟨hbl, hal, hlv, hov, hrow⟩
  · rename_i hg
    rw [Bool.not_eq_true] at hg
    have hlv1 : 1 ≤ s.lives := hlv hg
    set s4 := collideStep (moveAliens (moveBullets (movePlayer s))) with hs4def
    have hs4g : s4.gameOver = false := by simp [hs4def, hg]
    have hs4lv : s4.lives = s.lives := by simp [hs4def]
    have hs4bl : s4.bullets.length = maxBullets := by
      rw [hs4def, collideStep_bullets_eq, (collideBullets_facts _ _ _).2.2.2.2]
      simpa using hbl
    have hs4al : s4.aliens.length = alienCount := by
      rw [hs4def, collideStep_aliens_eq, (collideBullets_facts _ _ _).1]
      simpa using hal
    have hs4row : rowAligned s4.aliens := by
      rw [hs4def, collideStep_aliens_eq]
      refine rowAligned_sub (collideBullets_facts _ _ _).2.1 ?_
      have hx := moveAliens_aligned (moveBullets (movePlayer s)) (by simpa using hrow)
      exact hx
    by_cases hre : s4.aliens.any (reachedRow s4.player.y) = true
    · by_cases hdead : s4.lives - 1 ≤ 0
      · have hstep : rowReachStep s4 = { s4 with lives := s4.lives - 1, gameOver := true } := by
          unfold rowReachStep
          rw [if_pos hre, if_pos hdead]
        rw [hstep]
        obtain ⟨aw, haw, hawact⟩ := reached_exists_active s4.player.y s4.aliens hre
        rw [victoryCheck_of_gameOver { s4 with lives := s4.lives - 1, gameOver := true } rfl]
        refine ⟨hs4bl, hs4al, fun hcon => absurd hcon (by simp), fun _ => Or.inl ⟨?_, aw, haw, hawact⟩, hs4row⟩
        show s4.lives - 1 = 0
        omega
      · have hstep : rowReachStep s4 =
            { s4 with lives := s4.lives - 1,
                      aliens := waveResetAliens 0 s4.aliens,
                      bullets := s4.bullets.map (fun b => { b with active := false }) } := by
          unfold rowReachStep
          rw [if_pos hre, if_neg hdead]
        rw [hstep]
        have hne : s4.aliens ≠ [] := by
          intro hnil
          rw [hnil] at hs4al
          exact absurd hs4al (by decide)
        obtain ⟨xw, hxw, hxwact⟩ := waveResetAliens_exists_active 0 s4.aliens hne
        rw [victoryCheck_of_active
          { s4 with lives := s4.lives - 1,
                    aliens := waveResetAliens 0 s4.aliens,
                    bullets := s4.bullets.map (fun b => { b with active := false }) }
          xw hxw hxwact]
        refine ⟨?_, ?_, fun _ => by show 1 ≤ s4.lives - 1; omega,
          fun hcon => absurd (show s4.gameOver = true from hcon) (by simp [hs4g]), ?_⟩
        · show (s4.bullets.map (fun b => { b with active := false })).length = maxBullets
          simpa using hs4bl
        · show (waveResetAliens 0 s4.aliens).length = alienCount
          rw [waveResetAliens_length]
          exact hs4al
        · exact waveResetAliens_aligned 0 s4.aliens
    · have hstep : rowReachStep s4 = s4 := by
        unfold rowReachStep
        rw [if_neg (by simp [hre])]
      rw [hstep]
      by_cases hdead2 : (s4.aliens.all (fun a => !a.active)) = true
      · have hvc : victoryCheck s4 = { s4 with gameOver := true } := by
          unfold victoryCheck
          rw [if_pos (by rw [hdead2, hs4g]; rfl)]
        rw [hvc]
        refine ⟨hs4bl, hs4al, fun hcon => absurd hcon (by simp),
          fun _ => Or.inr ⟨?_, ?_⟩, hs4row⟩
        · show 1 ≤ s4.lives
          omega
        · intro a ha
          have := List.all_eq_true.mp hdead2 a ha
          simpa using this
      · have hvc : victoryCheck s4 = s4 := by
          unfold victoryCheck
          rw [if_neg (by simp [hdead2])]
        rw [hvc]
        exact ⟨hs4bl, hs4al, fun _ => by omega,
          fun hcon => absurd hcon (by simp [hs4g]), hs4row⟩

theorem fireBullets_len (p : Player) (l : List Bullet) :
    (fireBullets p l).length = l.length := by
  induction l with
  | nil => rfl
  | cons b bs ih =>
    unfold fireBullets
    split
    · simpa using ih
    · simp

theorem fireBullets_all_active (p : Player) (l : List Bullet)
    (h : ∀ b ∈ l, b.active = true) : fireBullets p l = l := by
  induction l with
  | nil => rfl
  | cons b bs ih =>
    unfold fireBullets
    rw [if_pos (h b (List.mem_cons_self b bs))]
    rw [ih (fun x hx => h x (List.mem_cons_of_mem b hx))]

theorem inv_applyCmd (s : GameState) (c : Cmd) (h : Inv s) : Inv (applyCmd s c) := by
  obtain ⟨hbl, hal, hlv, hov, hrow⟩ := h
  cases c with
  | frame => exact inv_frameUpdate s ⟨hbl, hal, hlv, hov, hrow⟩
  | fire =>
    show Inv (fireBullet s)
    unfold fireBullet
    split
    · exact ⟨hbl, hal, hlv, hov, hrow⟩
    · refine ⟨?_, hal, hlv, hov, hrow⟩
      show (fireBullets s.player s.bullets).length = maxBullets
      rw [fireBullets_len]
      exact hbl
  | leftDown => exact ⟨hbl, hal, hlv, hov, hrow⟩
  | rightDown => exact ⟨hbl, hal, hlv, hov, hrow⟩
  | leftUp =>
    show Inv (releaseLeft s)
    unfold releaseLeft
    split
    · exact ⟨hbl, hal, hlv, hov, hrow⟩
    · exact ⟨hbl, hal, hlv, hov, hrow⟩
  | rightUp =>
    show Inv (releaseRight s)
    unfold releaseRight
    split
    · exact ⟨hbl, hal, hlv, hov, hrow⟩
    · exact ⟨hbl, hal, hlv, hov, hrow⟩
  | restart =>
    show Inv (restartKey s)
    unfold restartKey
    split
    · exact inv_initState
    · exact ⟨hbl, hal, hlv, hov, hrow⟩

theorem reachable_inv (s : GameState) (h : Reachable s) : Inv s := by
  induction h with
  | init => exact inv_initState
  | step s c _ ih => exact inv_applyCmd s c ih

/-- C3: in every reachable game-over state exactly one of the two
terminal characterizations holds: zero lives with some alien still
active (defeat), or positive lives with every alien inactive (victory);
never both, never neither. -/
theorem terminal_state_spec (s : GameState) (hr : Reachable s) (hg : s.gameOver = true) :
    ((s.lives = 0 ∧ ∃ a ∈ s.aliens, a.active = true) ∨
      (0 < s.lives ∧ ∀ a ∈ s.aliens, a.active = false)) ∧
    ¬((s.lives = 0 ∧ ∃ a ∈ s.aliens, a.active = true) ∧
      (0 < s.lives ∧ ∀ a ∈ s.aliens, a.active = false)) := by
  obtain ⟨_, _, _, hov, _⟩ := reachable_inv s hr
  rcases hov hg with ⟨hl0, hex⟩ | ⟨hl1, hall⟩
  · refine ⟨Or.inl ⟨hl0, hex⟩, ?_⟩
    rintro ⟨⟨hz, _⟩, ⟨hpos, _⟩⟩
    omega
  · refine ⟨Or.inr ⟨by omega, hall⟩, ?_⟩
    rintro ⟨⟨hz, _⟩, ⟨hpos, _⟩⟩
    omega

theorem terminal_state_spec_witness :
    ((winState.lives = 0 ∧ ∃ a ∈ winState.aliens, a.active = true) ∨
      (0 < winState.lives ∧ ∀ a ∈ winState.aliens, a.active = false)) ∧
    ¬((winState.lives = 0 ∧ ∃ a ∈ winState.aliens, a.active = true) ∧
      (0 < winState.lives ∧ ∀ a ∈ winState.aliens, a.active = false)) :=
  terminal_state_spec winState (run_reachable winScript initState Reachable.init) (by decide)

/-- C8: in every reachable state any two active aliens share the same y
coordinate: the row starts aligned, descends uniformly, keeps y on
horizontal ticks and kills, and is realigned by wave resets and
restarts. -/
theorem formation_alignment (s : GameState) (hr : Reachable s) :
    ∀ a ∈ s.aliens, a.active = true → ∀ b ∈ s.aliens, b.active = true → a.y = b.y :=
  (reachable_inv s hr).2.2.2.2

theorem formation_alignment_witness : (alienAt 0).y = (alienAt 3).y :=
  formation_alignment initState Reachable.init (alienAt 0) (by decide) rfl
    (alienAt 3) (by decide) rfl

theorem fireBullets_first_free (p : Player) (l : List Bullet) :
    ∀ (i : Nat) (hi : i < l.length),
      (l.get ⟨i, hi⟩).active = false →
      (∀ j (hj : j < l.length), j < i → (l.get ⟨j, hj⟩).active = true) →
      fireBullets p l = l.set i { l.get ⟨i, hi⟩ with
                                  active := true,
                                  x := p.x + p.w / 2 - (l.get ⟨i, hi⟩).w / 2,
                                  y := p.y - (l.get ⟨i, hi⟩).h } := by
  induction l with
  | nil =>
    intro i hi
    exact absurd hi (by simp)
  | cons b bs ih =>
    intro i hi hfree hprev
    cases i with
    | zero =>
      have hb : b.active = false := hfree
      unfold fireBullets
      rw [if_neg (by simp [hb])]
      rfl
    | succ n =>
      have hb : b.active = true := hprev 0 (Nat.succ_pos _) (Nat.succ_pos n)
      unfold fireBullets
      rw [if_pos hb]
      have hrec := ih n (Nat.lt_of_succ_lt_succ hi) hfree
        (fun j hj hji => hprev (j + 1) (Nat.succ_lt_succ hj) (Nat.succ_lt_succ hji))
      rw [hrec]
      rfl

/-- C6: the fire operation is a no-op whenever the game is over or all 5
slots are active; otherwise it activates exactly the lowest-index
inactive slot, horizontally centered on the player with its bottom at
the player's top edge, changing no other slot and no other field; and no
reachable state has more than 5 active bullets. -/
theorem fire_bullet_spec :
    (∀ s : GameState, s.gameOver = true → fireBullet s = s) ∧
    (∀ s : GameState, (∀ b ∈ s.bullets, b.active = true) → fireBullet s = s) ∧
    (∀ (s : GameState) (i : Nat) (hi : i < s.bullets.length),
      s.gameOver = false →
      (s.bullets.get ⟨i, hi⟩).active = false →
      (∀ j (hj : j < s.bullets.length), j < i → (s.bullets.get ⟨j, hj⟩).active = true) →
      (fireBullet s).bullets =
        s.bullets.set i { s.bullets.get ⟨i, hi⟩ with
                          active := true,
                          x := s.player.x + s.player.w / 2 - (s.bullets.get ⟨i, hi⟩).w / 2,
                          y := s.player.y - (s.bullets.get ⟨i, hi⟩).h } ∧
      (fireBullet s).player = s.player ∧ (fireBullet s).aliens = s.aliens ∧
      (fireBullet s).score = s.score ∧ (fireBullet s).lives = s.lives ∧
      (fireBullet s).gameOver = s.gameOver ∧ (fireBullet s).dir = s.dir) ∧
    (∀ s : GameState, Reachable s →
      s.bullets.countP (fun b => b.active) ≤ maxBullets) := by
  refine ⟨fun s hg => ?_, fun s hall => ?_, fun s i hi hg hfree hprev => ?_, fun s hr => ?_⟩
  · unfold fireBullet
    rw [if_pos hg]
  · unfold fireBullet
    split
    · rfl
    · rw [fireBullets_all_active s.player s.bullets hall]
  · have hb : fireBullet s = { s with bullets := fireBullets s.player s.bullets } := by
      unfold fireBullet
      rw [if_neg (by simp [hg])]
    rw [hb]
    exact ⟨fireBullets_first_free s.player s.bullets i hi hfree hprev,
      rfl, rfl, rfl, rfl, rfl, rfl⟩
  · have hlen := (reachable_inv s hr).1
    calc s.bullets.countP (fun b => b.active) ≤ s.bullets.length := List.countP_le_length _
    _ = maxBullets := hlen

theorem fire_bullet_spec_witness :
    (fireBullet initState).bullets =
      initState.bullets.set 0 { initState.bullets.get ⟨0, by decide⟩ with
                                active := true,
                                x := initState.player.x + initState.player.w / 2 -
                                  (initState.bullets.get ⟨0, by decide⟩).w / 2,
                                y := initState.player.y -
                                  (initState.bullets.get ⟨0, by decide⟩).h } :=
  (fire_bullet_spec.2.2.1 initState 0 (by decide) rfl (by decide)
    (fun j hj hj0 => absurd hj0 (by omega))).1

end SpaceInvaders
